import Mathlib

/-!
# Verification of pySOT `strategy.py` (`GlobalStrategy`)

A shallow embedding of the evaluation scheduler / proposal state machine of
`pySOT/strategy.py` (class `GlobalStrategy`), together with proofs and
refutations of the spec's claims about it.

Modelling conventions:
* A `Point` is a row vector of the pending/completed matrices; coordinates are
  modelled as integers (numpy float rows compared with exact `==` in the
  source become exact equality here).  Objective values are likewise `Int`.
* `np.inf` sentinels (`maxeval`, `time_budget`) are modelled as `Option Nat`
  with `none` standing for `+∞`; the comparisons in `propose_action` are
  translated case by case.
* External collaborators (experimental design, adaptive sampler, surrogate,
  wall clock) are inputs: the initial design is a parameter of construction,
  the sampler's output and the current time are parameters of
  `propose_action`.  Surrogate calls (`reset`, `add_points`, `eval`) do not
  touch any field the claims mention and are omitted.
* Python `list.pop()` pops the LAST element; `list.append` appends at the end.
  `batch_queue` is therefore a stack popped from the end.
* Counters that Python stores as unbounded ints (`feval_budget`,
  `feval_pending`, `init_pending`) are `Int`.
-/

namespace PySOT

/-- A point: one row of `X` / `Xpend` / one entry of `batch_queue`. -/
abbrev Point := List Int

/-- The mutable state of `GlobalStrategy` (the fields assigned in
`GlobalStrategy.__init__` that the strategy logic reads or writes). -/
structure Strategy where
  /-- `self.maxeval`: `none` models `np.inf` (time-budget configuration). -/
  maxeval : Option Nat
  /-- `self.time_budget`: `none` models `np.inf` (count-budget configuration). -/
  time_budget : Option Nat
  /-- `self.start_time`. -/
  start_time : Nat
  /-- `self.stopping_criterion` (optional caller-supplied predicate). -/
  stopping_criterion : Option (Int → Bool)
  /-- `self.proposal_counter`. -/
  proposal_counter : Nat
  /-- `self.terminate`. -/
  terminate : Bool
  /-- `self.asynchronous`. -/
  asynchronous : Bool
  /-- `self.batch_size` (used only in synchronous mode). -/
  batch_size : Nat
  /-- `self.phase`: 1 for initial, 2 for adaptive. -/
  phase : Nat
  /-- `self.rejected_count`. -/
  rejected_count : Nat
  /-- `self.accepted_count`. -/
  accepted_count : Nat
  /-- `self.ev_last`. -/
  ev_last : Nat
  /-- `self.batch_queue` (popped from the end, appended at the end). -/
  batch_queue : List Point
  /-- `self.init_pending`. -/
  init_pending : Int
  /-- `self.numeval`. -/
  numeval : Nat
  /-- `self.feval_budget`. -/
  feval_budget : Int
  /-- `self.feval_pending`. -/
  feval_pending : Int
  /-- `self.X` (completed points, one row per completed evaluation). -/
  X : List Point
  /-- `self.fX` (completed values, aligned with `X`). -/
  fX : List Int
  /-- `self.Xpend` (pending points, one row per outstanding proposal). -/
  Xpend : List Point
  /-- `self.xbest` (initialised to `None`, see `__init__`). -/
  xbest : Option Point
  /-- `self.fbest`: `none` models the initial `np.inf` sentinel. -/
  fbest : Option Int
  /-- `self.fevals` (log of completed records; we keep the values). -/
  fevals : List Int

/-- Construction parameters of `GlobalStrategy` that the claims involve.
`start_sample` is the output of the (external) experimental design as queued
by `sample_initial`. -/
structure Config where
  max_evals : Int
  asynchronous : Bool
  batch_size : Nat
  crit : Option (Int → Bool)
  start_sample : List Point
  start_time : Nat

/-- `GlobalStrategy.__init__` followed by `sample_initial` (which appends the
experimental design to `batch_queue`); only state-bearing assignments are
kept.  `max_evals < 0` configures a time budget: `self.maxeval = np.inf`,
`self.time_budget = abs(max_evals)`; afterwards `max_evals = np.abs(max_evals)`
and `self.feval_budget = max_evals`. -/
def initStrategy (cfg : Config) : Strategy :=
  { maxeval := if cfg.max_evals < 0 then none else some cfg.max_evals.toNat
    time_budget := if cfg.max_evals < 0 then some cfg.max_evals.natAbs else none
    start_time := cfg.start_time
    stopping_criterion := cfg.crit
    proposal_counter := 0
    terminate := false
    asynchronous := cfg.asynchronous
    batch_size := cfg.batch_size
    phase := 1
    rejected_count := 0
    accepted_count := 0
    ev_last := 0
    batch_queue := cfg.start_sample
    init_pending := 0
    numeval := 0
    feval_budget := cfg.max_evals.natAbs
    feval_pending := 0
    X := []
    fX := []
    Xpend := []
    xbest := none
    fbest := none
    fevals := [] }

/-- The two kinds of proposal `propose_action` can return (`Proposal('terminate')`
and `Proposal('eval', x)`); `isInit` records which callback family was attached
(`on_initial_proposal` vs `on_adapt_proposal`). -/
inductive Action where
  | terminate : Action
  | eval (x : Point) (isInit : Bool) : Action
deriving DecidableEq

/-- `make_proposal`: decrement the budget, increment the pending count, bump
`ev_last` (via `get_ev`), and vstack the point onto `Xpend`. -/
def make_proposal (s : Strategy) (x : Point) : Strategy :=
  { s with feval_budget := s.feval_budget - 1
           feval_pending := s.feval_pending + 1
           ev_last := s.ev_last + 1
           Xpend := s.Xpend ++ [x] }

/-- `remove_closest_pending`: `np.where((Xpend == x).all(axis=1))` selects
EVERY row equal to `x`; `np.delete` removes them all. -/
def remove_closest_pending (s : Strategy) (x : Point) : Strategy :=
  { s with Xpend := s.Xpend.filter (fun y => y ≠ x) }

/-- `init_proposal`: pop the last point of `batch_queue`, build the proposal,
and count it as initial-phase (`init_pending += 1`).  Popping an empty queue
raises in Python; modelled as "no action". -/
def init_proposal (s : Strategy) : Option Action × Strategy :=
  match s.batch_queue.getLast? with
  | none => (none, s)
  | some x =>
    let s1 := { s with batch_queue := s.batch_queue.dropLast }
    let s2 := make_proposal s1 x
    (some (Action.eval x true), { s2 with init_pending := s2.init_pending + 1 })

/-- `adapt_proposal_async`: ask the (external) adaptive sampler for one point
and propose it. `sampler` is the sampler's output (`make_points(npts=1, ...)`);
an empty output would violate the sampler contract and is modelled as "no
action". -/
def adapt_proposal_async (s : Strategy) (sampler : List Point) : Option Action × Strategy :=
  match sampler with
  | [] => (none, s)
  | x :: _ =>
    let s1 := { s with proposal_counter := s.proposal_counter + 1 }
    (some (Action.eval x false), make_proposal s1 x)

/-- `adapt_proposal_sync`: pop the last point of `batch_queue` and propose it. -/
def adapt_proposal_sync (s : Strategy) : Option Action × Strategy :=
  match s.batch_queue.getLast? with
  | none => (none, s)
  | some x =>
    let s1 := { s with proposal_counter := s.proposal_counter + 1
                       batch_queue := s.batch_queue.dropLast }
    (some (Action.eval x false), make_proposal s1 x)

/-- `nsamples = min(self.batch_size, self.maxeval - self.numeval)` computed in
`make_batch`; `min(b, inf) = b` when a time budget is configured. -/
def nsamplesInt (s : Strategy) : Int :=
  match s.maxeval with
  | none => s.batch_size
  | some m => min (s.batch_size : Int) ((m : Int) - (s.numeval : Int))

/-- `make_batch`: append the first `nsamples` sampler points to `batch_queue`
(`for i in range(nsamples): batch_queue.append(new_points[i, :])`). -/
def make_batch (s : Strategy) (new_points : List Point) : Strategy :=
  { s with batch_queue := s.batch_queue ++ new_points.take (nsamplesInt s).toNat }

/-- The stopping disjunction of `propose_action`:
`numeval >= maxeval or terminate or (current_time - start_time) >= time_budget`
(comparisons against `np.inf` are `False`). -/
def stopCond (s : Strategy) (now : Nat) : Bool :=
  (match s.maxeval with
   | some m => decide (m ≤ s.numeval)
   | none => false)
  || s.terminate
  || (match s.time_budget with
      | some t => decide (t ≤ now - s.start_time)
      | none => false)

/-- The synchronous refill path of `propose_action` (`self.phase = 2;
self.make_batch(); return self.adapt_proposal_sync()`). -/
def sync_refill (s : Strategy) (sampler : List Point) : Option Action × Strategy :=
  adapt_proposal_sync (make_batch { s with phase := 2 } sampler)

/-- `propose_action`.  `now` is `time.time()`, `sampler` the adaptive
sampler's output for this call (used only on the branches that invoke it).
A Python path that falls off the end returns `None`: modelled as `none`. -/
def propose_action (s : Strategy) (now : Nat) (sampler : List Point) :
    Option Action × Strategy :=
  if stopCond s now then
    if s.feval_pending = 0 then (some Action.terminate, s) else (none, s)
  else if s.asynchronous then
    match s.batch_queue with
    | _ :: _ => init_proposal s
    | [] => adapt_proposal_async s sampler
  else
    match s.batch_queue with
    | _ :: _ => if s.phase = 1 then init_proposal s else adapt_proposal_sync s
    | [] =>
      if s.feval_pending = 0 then sync_refill s sampler
      else (none, s)

/-- `on_initial_accepted` (state-bearing part: `accepted_count += 1`; the
record annotations live on the external record object). -/
def on_initial_accepted (s : Strategy) : Strategy :=
  { s with accepted_count := s.accepted_count + 1 }

/-- `on_initial_rejected`: note the source first re-vstacks the point onto
`Xpend` and then calls `remove_closest_pending`, which deletes every row
equal to it. -/
def on_initial_rejected (s : Strategy) (x : Point) : Strategy :=
  let s1 := { s with rejected_count := s.rejected_count + 1
                     feval_budget := s.feval_budget + 1
                     feval_pending := s.feval_pending - 1
                     init_pending := s.init_pending - 1
                     batch_queue := s.batch_queue ++ [x] }
  let s2 := { s1 with Xpend := s1.Xpend ++ [x] }
  remove_closest_pending s2 x

/-- The stopping-criterion check shared by the completion handlers. -/
def applyStoppingCriterion (s : Strategy) (fx : Int) : Strategy :=
  match s.stopping_criterion with
  | some f => if f fx then { s with terminate := true } else s
  | none => s

/-- `on_initial_completed`: criterion check, counter updates, vstack onto
`X`/`fX`, surrogate update (external), pending removal, log append. -/
def on_initial_completed (s : Strategy) (x : Point) (fx : Int) : Strategy :=
  let s1 := applyStoppingCriterion s fx
  let s2 := { s1 with numeval := s1.numeval + 1
                      feval_pending := s1.feval_pending - 1
                      init_pending := s1.init_pending - 1
                      X := s1.X ++ [x]
                      fX := s1.fX ++ [fx] }
  let s3 := remove_closest_pending s2 x
  { s3 with fevals := s3.fevals ++ [fx] }

/-- `on_initial_aborted`: restore the budget, re-queue the point, drop it from
`Xpend`. -/
def on_initial_aborted (s : Strategy) (x : Point) : Strategy :=
  let s1 := { s with feval_budget := s.feval_budget + 1
                     feval_pending := s.feval_pending - 1
                     init_pending := s.init_pending - 1
                     batch_queue := s.batch_queue ++ [x] }
  remove_closest_pending s1 x

/-- `on_adapt_accept`. -/
def on_adapt_accept (s : Strategy) : Strategy :=
  { s with accepted_count := s.accepted_count + 1 }

/-- `on_adapt_reject`: the candidate is discarded, not re-queued. -/
def on_adapt_reject (s : Strategy) (x : Point) : Strategy :=
  let s1 := { s with rejected_count := s.rejected_count + 1
                     feval_budget := s.feval_budget + 1
                     feval_pending := s.feval_pending - 1 }
  remove_closest_pending s1 x

/-- `on_adapt_completed`. -/
def on_adapt_completed (s : Strategy) (x : Point) (fx : Int) : Strategy :=
  let s1 := applyStoppingCriterion s fx
  let s2 := { s1 with numeval := s1.numeval + 1
                      feval_pending := s1.feval_pending - 1
                      X := s1.X ++ [x]
                      fX := s1.fX ++ [fx] }
  let s3 := remove_closest_pending s2 x
  { s3 with fevals := s3.fevals ++ [fx] }

/-- `on_adapt_aborted`: the candidate is discarded, not re-queued. -/
def on_adapt_aborted (s : Strategy) (x : Point) : Strategy :=
  let s1 := { s with feval_budget := s.feval_budget + 1
                     feval_pending := s.feval_pending - 1 }
  remove_closest_pending s1 x

/-- `save` writes the whole object with `dill.dump` and atomically renames;
the persisted copy is modelled as the state itself (a faithful dill
round-trip restores every field). -/
def save (s : Strategy) : Strategy := s

/-- `resume`: the only assignment is `self.feval_pending = 0`. -/
def resume (s : Strategy) : Strategy :=
  { s with feval_pending := 0 }

/-! ## The event-level transition system

The worker pool (external) holds, for every EVAL proposal, the callbacks the
strategy attached; it delivers exactly one accept/reject notification per
proposal and exactly one complete/abort notification per accepted proposal,
each carrying the originally proposed point.  We track those outstanding
proposals in a list of `Flight`s and drive the handlers from events. -/

/-- One in-flight proposal held by the external controller: which callback
family it carries (`isInit`), whether it has been accepted, and its point. -/
structure Flight where
  isInit : Bool
  accepted : Bool
  x : Point
deriving DecidableEq

/-- Strategy state plus the outstanding proposals held by the controller. -/
structure Sys where
  strat : Strategy
  inflight : List Flight

/-- A single external event delivered to the strategy. -/
inductive Ev where
  /-- One `propose_action` call, with the current time and the adaptive
  sampler's output for this call. -/
  | propose (now : Nat) (sampler : List Point) : Ev
  /-- Accept the `i`-th outstanding (not yet accepted) proposal. -/
  | accept (i : Nat) : Ev
  /-- Reject the `i`-th outstanding (not yet accepted) proposal. -/
  | reject (i : Nat) : Ev
  /-- Complete the `i`-th outstanding (accepted) proposal with value `v`. -/
  | complete (i : Nat) (v : Int) : Ev
  /-- Abort the `i`-th outstanding (accepted) proposal. -/
  | abort (i : Nat) : Ev

/-- A `propose_action` call as seen by the controller: when an EVAL proposal
comes back, the controller holds it (and the callbacks the strategy attached)
as a new in-flight entry. -/
def stepPropose (σ : Sys) (now : Nat) (sampler : List Point) : Option Sys :=
  match (propose_action σ.strat now sampler).1 with
  | some (Action.eval x isInit) =>
      some ⟨(propose_action σ.strat now sampler).2, ⟨isInit, false, x⟩ :: σ.inflight⟩
  | _ => some ⟨(propose_action σ.strat now sampler).2, σ.inflight⟩

/-- Accept notification for the `i`-th in-flight proposal (must not have been
accepted already — each proposal gets exactly one accept/reject). -/
def stepAccept (σ : Sys) (i : Nat) : Option Sys :=
  match σ.inflight[i]? with
  | some f =>
    if f.accepted then none
    else some ⟨if f.isInit then on_initial_accepted σ.strat else on_adapt_accept σ.strat,
               σ.inflight.set i { f with accepted := true }⟩
  | none => none

/-- Reject notification for the `i`-th in-flight proposal. -/
def stepReject (σ : Sys) (i : Nat) : Option Sys :=
  match σ.inflight[i]? with
  | some f =>
    if f.accepted then none
    else some ⟨if f.isInit then on_initial_rejected σ.strat f.x
               else on_adapt_reject σ.strat f.x,
               σ.inflight.eraseIdx i⟩
  | none => none

/-- Completion notification for the `i`-th in-flight proposal (must have been
accepted — records exist only for accepted proposals). -/
def stepComplete (σ : Sys) (i : Nat) (v : Int) : Option Sys :=
  match σ.inflight[i]? with
  | some f =>
    if f.accepted then
      some ⟨if f.isInit then on_initial_completed σ.strat f.x v
            else on_adapt_completed σ.strat f.x v,
            σ.inflight.eraseIdx i⟩
    else none
  | none => none

/-- Abort notification for the `i`-th in-flight proposal. -/
def stepAbort (σ : Sys) (i : Nat) : Option Sys :=
  match σ.inflight[i]? with
  | some f =>
    if f.accepted then
      some ⟨if f.isInit then on_initial_aborted σ.strat f.x
            else on_adapt_aborted σ.strat f.x,
            σ.inflight.eraseIdx i⟩
    else none
  | none => none

/-- Apply one event; `none` when the event violates the controller contract
(no such proposal, accept of an accepted proposal, completion of an
unaccepted one, ...). -/
def stepEv (σ : Sys) (e : Ev) : Option Sys :=
  match e with
  | .propose now sampler => stepPropose σ now sampler
  | .accept i => stepAccept σ i
  | .reject i => stepReject σ i
  | .complete i v => stepComplete σ i v
  | .abort i => stepAbort σ i

/-- Run a list of events with an arbitrary step function. -/
def runWith (step : Sys → Ev → Option Sys) : Sys → List Ev → Option Sys
  | σ, [] => some σ
  | σ, e :: rest =>
    match step σ e with
    | some σ' => runWith step σ' rest
    | none => none

/-- The freshly constructed system: `GlobalStrategy.__init__` with no
outstanding proposals. -/
def initSys (cfg : Config) : Sys := ⟨initStrategy cfg, []⟩

/-- Reachability by the events the claims quantify over (`propose_action`,
accept/reject, complete/abort). -/
def Reachable (cfg : Config) (σ : Sys) : Prop :=
  ∃ evs : List Ev, runWith stepEv (initSys cfg) evs = some σ

/-- `stepEv` restricted to runs that never propose a point while an equal
point is still pending (every in-flight point stays distinct). -/
def stepFresh (σ : Sys) (e : Ev) : Option Sys :=
  match stepEv σ e with
  | some σ' => if (σ'.inflight.map Flight.x).Nodup then some σ' else none
  | none => none

/-- Reachability through duplicate-free runs (used by the amended pending-set
consistency claim). -/
def FreshReachable (cfg : Config) (σ : Sys) : Prop :=
  ∃ evs : List Ev, runWith stepFresh (initSys cfg) evs = some σ

/-- The conserved budget quantity. -/
def budgetSum (s : Strategy) : Int :=
  s.feval_budget + (s.numeval : Int) + s.feval_pending

/-- The spec's words for the right-hand side of the conservation claim:
"the absolute value of the configured budget (infinite when a time budget is
configured)".  (Definition follows the SPEC, for refutation; the code's
conserved quantity is `Int.natAbs` without the infinite case.) -/
def claimedMaxEvals (max_evals : Int) : WithTop Int :=
  if max_evals < 0 then ⊤ else (max_evals : WithTop Int)

/-! ## Concrete configurations used by witnesses and counterexamples -/

/-- An asynchronous run with a count budget of 10 and a one-point initial
design `[[0]]`. -/
def cfgAsync : Config :=
  { max_evals := 10, asynchronous := true, batch_size := 0, crit := none
    start_sample := [[0]], start_time := 0 }

/-- A synchronous run with a count budget of 10, batch size 2, and a
one-point initial design `[[0]]`. -/
def cfgSync : Config :=
  { max_evals := 10, asynchronous := false, batch_size := 2, crit := none
    start_sample := [[0]], start_time := 0 }

/-- A time-budget configuration: `max_evals = -5` (5 seconds). -/
def cfgTime : Config :=
  { max_evals := -5, asynchronous := true, batch_size := 0, crit := none
    start_sample := [[0]], start_time := 0 }

/-- A count budget of 0: `propose_action` stops immediately. -/
def cfgZero : Config :=
  { max_evals := 0, asynchronous := true, batch_size := 0, crit := none
    start_sample := [], start_time := 0 }

/-- A synchronous run with an empty initial design (the refill branch is hit
on the first `propose_action` call). -/
def cfgSync2 : Config :=
  { max_evals := 10, asynchronous := false, batch_size := 2, crit := none
    start_sample := [], start_time := 0 }

/-! ## Helper lemmas -/

/-- `applyStoppingCriterion` only ever writes the `terminate` flag:
`Xpend` is untouched. -/
@[simp] theorem applyStop_Xpend (s : Strategy) (fx : Int) :
    (applyStoppingCriterion s fx).Xpend = s.Xpend := by
  unfold applyStoppingCriterion
  cases s.stopping_criterion with
  | none => rfl
  | some f => dsimp only; split <;> rfl

/-- `applyStoppingCriterion` leaves `feval_pending` unchanged. -/
@[simp] theorem applyStop_feval_pending (s : Strategy) (fx : Int) :
    (applyStoppingCriterion s fx).feval_pending = s.feval_pending := by
  unfold applyStoppingCriterion
  cases s.stopping_criterion with
  | none => rfl
  | some f => dsimp only; split <;> rfl

/-- `applyStoppingCriterion` leaves `feval_budget` unchanged. -/
@[simp] theorem applyStop_feval_budget (s : Strategy) (fx : Int) :
    (applyStoppingCriterion s fx).feval_budget = s.feval_budget := by
  unfold applyStoppingCriterion
  cases s.stopping_criterion with
  | none => rfl
  | some f => dsimp only; split <;> rfl

/-- `applyStoppingCriterion` leaves `init_pending` unchanged. -/
@[simp] theorem applyStop_init_pending (s : Strategy) (fx : Int) :
    (applyStoppingCriterion s fx).init_pending = s.init_pending := by
  unfold applyStoppingCriterion
  cases s.stopping_criterion with
  | none => rfl
  | some f => dsimp only; split <;> rfl

/-- `applyStoppingCriterion` leaves `numeval` unchanged. -/
@[simp] theorem applyStop_numeval (s : Strategy) (fx : Int) :
    (applyStoppingCriterion s fx).numeval = s.numeval := by
  unfold applyStoppingCriterion
  cases s.stopping_criterion with
  | none => rfl
  | some f => dsimp only; split <;> rfl

/-- `applyStoppingCriterion` leaves `X` unchanged. -/
@[simp] theorem applyStop_X (s : Strategy) (fx : Int) :
    (applyStoppingCriterion s fx).X = s.X := by
  unfold applyStoppingCriterion
  cases s.stopping_criterion with
  | none => rfl
  | some f => dsimp only; split <;> rfl

/-- `applyStoppingCriterion` leaves `fX` unchanged. -/
@[simp] theorem applyStop_fX (s : Strategy) (fx : Int) :
    (applyStoppingCriterion s fx).fX = s.fX := by
  unfold applyStoppingCriterion
  cases s.stopping_criterion with
  | none => rfl
  | some f => dsimp only; split <;> rfl

/-- `applyStoppingCriterion` leaves `batch_queue` unchanged. -/
@[simp] theorem applyStop_batch_queue (s : Strategy) (fx : Int) :
    (applyStoppingCriterion s fx).batch_queue = s.batch_queue := by
  unfold applyStoppingCriterion
  cases s.stopping_criterion with
  | none => rfl
  | some f => dsimp only; split <;> rfl

/-- `applyStoppingCriterion` leaves `phase` unchanged. -/
@[simp] theorem applyStop_phase (s : Strategy) (fx : Int) :
    (applyStoppingCriterion s fx).phase = s.phase := by
  unfold applyStoppingCriterion
  cases s.stopping_criterion with
  | none => rfl
  | some f => dsimp only; split <;> rfl

/-- `applyStoppingCriterion` leaves `asynchronous` unchanged. -/
@[simp] theorem applyStop_asynchronous (s : Strategy) (fx : Int) :
    (applyStoppingCriterion s fx).asynchronous = s.asynchronous := by
  unfold applyStoppingCriterion
  cases s.stopping_criterion with
  | none => rfl
  | some f => dsimp only; split <;> rfl

/-- `applyStoppingCriterion` leaves `fbest` unchanged. -/
@[simp] theorem applyStop_fbest (s : Strategy) (fx : Int) :
    (applyStoppingCriterion s fx).fbest = s.fbest := by
  unfold applyStoppingCriterion
  cases s.stopping_criterion with
  | none => rfl
  | some f => dsimp only; split <;> rfl

/-- `applyStoppingCriterion` leaves `xbest` unchanged. -/
@[simp] theorem applyStop_xbest (s : Strategy) (fx : Int) :
    (applyStoppingCriterion s fx).xbest = s.xbest := by
  unfold applyStoppingCriterion
  cases s.stopping_criterion with
  | none => rfl
  | some f => dsimp only; split <;> rfl

/-- `init_proposal` returns either no action or an initial-phase EVAL. -/
theorem init_proposal_fst (s : Strategy) :
    (init_proposal s).1 = none ∨
      ∃ x, (init_proposal s).1 = some (Action.eval x true) := by
  unfold init_proposal
  cases s.batch_queue.getLast? with
  | none => exact Or.inl rfl
  | some x => exact Or.inr ⟨x, rfl⟩

/-- `adapt_proposal_async` returns either no action or an adaptive EVAL. -/
theorem adapt_proposal_async_fst (s : Strategy) (sampler : List Point) :
    (adapt_proposal_async s sampler).1 = none ∨
      ∃ x, (adapt_proposal_async s sampler).1 = some (Action.eval x false) := by
  unfold adapt_proposal_async
  cases sampler with
  | nil => exact Or.inl rfl
  | cons x rest => exact Or.inr ⟨x, rfl⟩

/-- `adapt_proposal_sync` returns either no action or an adaptive EVAL. -/
theorem adapt_proposal_sync_fst (s : Strategy) :
    (adapt_proposal_sync s).1 = none ∨
      ∃ x, (adapt_proposal_sync s).1 = some (Action.eval x false) := by
  unfold adapt_proposal_sync
  cases s.batch_queue.getLast? with
  | none => exact Or.inl rfl
  | some x => exact Or.inr ⟨x, rfl⟩

/-- `sync_refill` returns either no action or an adaptive EVAL. -/
theorem sync_refill_fst (s : Strategy) (sampler : List Point) :
    (sync_refill s sampler).1 = none ∨
      ∃ x, (sync_refill s sampler).1 = some (Action.eval x false) := by
  unfold sync_refill
  exact adapt_proposal_sync_fst _

/-- When the stopping disjunction is false, `propose_action` never returns
TERMINATE (every branch produces an EVAL proposal or no action). -/
theorem propose_action_fst_ne_terminate (s : Strategy) (now : Nat)
    (sampler : List Point) (h : ¬ stopCond s now = true) :
    (propose_action s now sampler).1 ≠ some Action.terminate := by
  unfold propose_action
  rw [if_neg h]
  split
  · split
    · rcases init_proposal_fst s with h' | ⟨x, h'⟩ <;> simp [h']
    · rcases adapt_proposal_async_fst s sampler with h' | ⟨x, h'⟩ <;> simp [h']
  · split
    · split
      · rcases init_proposal_fst s with h' | ⟨x, h'⟩ <;> simp [h']
      · rcases adapt_proposal_sync_fst s with h' | ⟨x, h'⟩ <;> simp [h']
    · split
      · rcases sync_refill_fst s sampler with h' | ⟨x, h'⟩ <;> simp [h']
      · simp

/-! ## C4 — termination safety -/

/-- C4 (confirmed).  `propose_action` returns a TERMINATE proposal only when
`feval_pending == 0` and the stopping disjunction (`numeval >= maxeval`, the
`terminate` flag, or elapsed time `>= time_budget`) holds; when the stopping
disjunction holds but `feval_pending != 0` it returns no action. -/
theorem propose_action_terminate_safe (s : Strategy) (now : Nat)
    (sampler : List Point) :
    ((propose_action s now sampler).1 = some Action.terminate →
        s.feval_pending = 0 ∧ stopCond s now = true) ∧
    (stopCond s now = true → s.feval_pending ≠ 0 →
        (propose_action s now sampler).1 = none) := by
  by_cases hstop : stopCond s now
  · by_cases hp : s.feval_pending = 0
    · refine ⟨fun _ => ⟨hp, hstop⟩, fun _ hne => absurd hp hne⟩
    · refine ⟨fun habs => ?_, fun _ _ => ?_⟩
      · rw [propose_action, if_pos hstop, if_neg hp] at habs
        exact absurd habs (by simp)
      · rw [propose_action, if_pos hstop, if_neg hp]
  · refine ⟨fun habs => absurd habs
      (propose_action_fst_ne_terminate s now sampler hstop),
      fun h => absurd h hstop⟩

/-- Witness for C4: with a zero evaluation budget the very first
`propose_action` call returns TERMINATE, and indeed `feval_pending = 0` with
the stopping disjunction true. -/
theorem propose_action_terminate_safe_witness :
    (initStrategy cfgZero).feval_pending = 0 ∧
      stopCond (initStrategy cfgZero) 0 = true :=
  (propose_action_terminate_safe (initStrategy cfgZero) 0 []).1 (by decide)

/-! ## C5 — initial-phase rejection -/

/-- C5 (confirmed).  An initial-phase rejection increments `rejected_count`,
restores `feval_budget` by 1 (back to its pre-proposal value, witnessed by
the composition with `make_proposal`), decrements `feval_pending` and
`init_pending`, pushes the point back onto `batch_queue`, and removes it from
`Xpend`, which afterwards contains no row equal to it. -/
theorem on_initial_rejected_spec (s : Strategy) (x : Point) :
    (on_initial_rejected s x).rejected_count = s.rejected_count + 1 ∧
    (on_initial_rejected s x).feval_budget = s.feval_budget + 1 ∧
    (on_initial_rejected (make_proposal s x) x).feval_budget = s.feval_budget ∧
    (on_initial_rejected s x).feval_pending = s.feval_pending - 1 ∧
    (on_initial_rejected s x).init_pending = s.init_pending - 1 ∧
    (on_initial_rejected s x).batch_queue = s.batch_queue ++ [x] ∧
    x ∉ (on_initial_rejected s x).Xpend := by
  refine ⟨rfl, rfl, ?_, rfl, rfl, rfl, ?_⟩
  · show s.feval_budget - 1 + 1 = s.feval_budget
    omega
  · simp [on_initial_rejected, remove_closest_pending, List.mem_filter]

/-! ## C6 — adaptive-phase abort/reject discards the candidate -/

/-- C6 (confirmed).  Adaptive-phase ABORTED and REJECTED both restore
`feval_budget` by 1, decrement `feval_pending` by 1, and remove the point
from `Xpend`, while `batch_queue`, `numeval`, `X`, and `fX` are unchanged
(the candidate is not re-queued). -/
theorem on_adapt_abort_reject_spec (s : Strategy) (x : Point) :
    (on_adapt_aborted s x).feval_budget = s.feval_budget + 1 ∧
    (on_adapt_aborted s x).feval_pending = s.feval_pending - 1 ∧
    x ∉ (on_adapt_aborted s x).Xpend ∧
    (on_adapt_aborted s x).batch_queue = s.batch_queue ∧
    (on_adapt_aborted s x).numeval = s.numeval ∧
    (on_adapt_aborted s x).X = s.X ∧
    (on_adapt_aborted s x).fX = s.fX ∧
    (on_adapt_reject s x).feval_budget = s.feval_budget + 1 ∧
    (on_adapt_reject s x).feval_pending = s.feval_pending - 1 ∧
    x ∉ (on_adapt_reject s x).Xpend ∧
    (on_adapt_reject s x).batch_queue = s.batch_queue ∧
    (on_adapt_reject s x).numeval = s.numeval ∧
    (on_adapt_reject s x).X = s.X ∧
    (on_adapt_reject s x).fX = s.fX := by
  refine ⟨rfl, rfl, ?_, rfl, rfl, rfl, rfl, rfl, rfl, ?_, rfl, rfl, rfl, rfl⟩ <;>
    simp [on_adapt_aborted, on_adapt_reject, remove_closest_pending,
      List.mem_filter]

/-! ## C10 — terminal events remove every matching pending row -/

/-- C10 (confirmed).  Every terminal handler removes pending rows by exact
equality against ALL rows of `Xpend` (the resulting `Xpend` is the old one
filtered of every row equal to the point — for the initial-rejection handler
this also swallows the extra row it first re-vstacks), so after one terminal
event no row equal to the point remains even if several were pending, while
`feval_pending` is decremented by exactly 1. -/
theorem terminal_removes_all_matching (s : Strategy) (x : Point) (v : Int) :
    (on_initial_rejected s x).Xpend = s.Xpend.filter (fun y => y ≠ x) ∧
    (on_initial_completed s x v).Xpend = s.Xpend.filter (fun y => y ≠ x) ∧
    (on_initial_aborted s x).Xpend = s.Xpend.filter (fun y => y ≠ x) ∧
    (on_adapt_reject s x).Xpend = s.Xpend.filter (fun y => y ≠ x) ∧
    (on_adapt_completed s x v).Xpend = s.Xpend.filter (fun y => y ≠ x) ∧
    (on_adapt_aborted s x).Xpend = s.Xpend.filter (fun y => y ≠ x) ∧
    (∀ y, y ∈ s.Xpend.filter (fun y => y ≠ x) ↔ y ∈ s.Xpend ∧ y ≠ x) ∧
    (on_initial_rejected s x).feval_pending = s.feval_pending - 1 ∧
    (on_initial_completed s x v).feval_pending = s.feval_pending - 1 ∧
    (on_initial_aborted s x).feval_pending = s.feval_pending - 1 ∧
    (on_adapt_reject s x).feval_pending = s.feval_pending - 1 ∧
    (on_adapt_completed s x v).feval_pending = s.feval_pending - 1 ∧
    (on_adapt_aborted s x).feval_pending = s.feval_pending - 1 := by
  refine ⟨?_, ?_, rfl, rfl, ?_, rfl, ?_, rfl, ?_, rfl, rfl, ?_, rfl⟩
  · simp [on_initial_rejected, remove_closest_pending]
  · simp [on_initial_completed, remove_closest_pending]
  · simp [on_adapt_completed, remove_closest_pending]
  · intro y; simp [List.mem_filter]
  · simp [on_initial_completed, remove_closest_pending]
  · simp [on_adapt_completed, remove_closest_pending]

/-! ## C7 — checkpoint round-trip -/

/-- C7 (amended).  `resume(save(state))` preserves `X`, `fX`, `numeval`,
`feval_budget`, `xbest`, `fbest` and forces `feval_pending` to 0 — but it
resets NOTHING else: `Xpend`, `init_pending`, and `batch_queue` are left
exactly as saved (the claim's "resets all per-proposal in-flight bookkeeping
(including Xpend) to zero" does not hold). -/
theorem resume_save_roundtrip (s : Strategy) :
    (resume (save s)).X = s.X ∧
    (resume (save s)).fX = s.fX ∧
    (resume (save s)).numeval = s.numeval ∧
    (resume (save s)).feval_budget = s.feval_budget ∧
    (resume (save s)).xbest = s.xbest ∧
    (resume (save s)).fbest = s.fbest ∧
    (resume (save s)).feval_pending = 0 ∧
    (resume (save s)).Xpend = s.Xpend ∧
    (resume (save s)).init_pending = s.init_pending ∧
    (resume (save s)).batch_queue = s.batch_queue :=
  ⟨rfl, rfl, rfl, rfl, rfl, rfl, rfl, rfl, rfl, rfl⟩

/-- Counterexample for C7 as stated: at the reachable state with one
in-flight initial proposal, `resume(save(state))` leaves `Xpend` non-empty
and `init_pending` non-zero — the claimed reset of "all per-proposal
in-flight bookkeeping (including Xpend)" does not happen. -/
theorem resume_leaves_xpend :
    ∃ σ, Reachable cfgAsync σ ∧ σ.strat.Xpend ≠ [] ∧
      (resume (save σ.strat)).feval_pending = 0 ∧
      (resume (save σ.strat)).Xpend ≠ [] ∧
      (resume (save σ.strat)).init_pending ≠ 0 := by
  refine ⟨(runWith stepEv (initSys cfgAsync) [.propose 0 []]).get (by decide),
    ⟨[.propose 0 []], (Option.some_get (by decide)).symm⟩, ?_, ?_, ?_, ?_⟩ <;>
    decide

/-! ## Effect lemmas for the proposal makers and `propose_action` -/

/-- `init_proposal` either does nothing (empty queue) or emits an
initial-phase EVAL of the popped point: frames and budget effects. -/
theorem init_proposal_effects (s : Strategy) :
    (init_proposal s).2.numeval = s.numeval ∧
    (init_proposal s).2.X = s.X ∧
    (init_proposal s).2.fX = s.fX ∧
    (init_proposal s).2.fbest = s.fbest ∧
    (init_proposal s).2.xbest = s.xbest ∧
    (init_proposal s).2.asynchronous = s.asynchronous ∧
    (init_proposal s).2.phase = s.phase ∧
    ((∃ x, (init_proposal s).1 = some (Action.eval x true) ∧
        (init_proposal s).2.Xpend = s.Xpend ++ [x] ∧
        (init_proposal s).2.feval_pending = s.feval_pending + 1 ∧
        (init_proposal s).2.feval_budget = s.feval_budget - 1) ∨
      ((init_proposal s).1 = none ∧ (init_proposal s).2 = s)) := by
  unfold init_proposal
  cases h : s.batch_queue.getLast? with
  | none => exact ⟨rfl, rfl, rfl, rfl, rfl, rfl, rfl, Or.inr ⟨rfl, rfl⟩⟩
  | some x =>
    exact ⟨rfl, rfl, rfl, rfl, rfl, rfl, rfl, Or.inl ⟨x, rfl, rfl, rfl, rfl⟩⟩

/-- `adapt_proposal_async` effects. -/
theorem adapt_proposal_async_effects (s : Strategy) (sampler : List Point) :
    (adapt_proposal_async s sampler).2.numeval = s.numeval ∧
    (adapt_proposal_async s sampler).2.X = s.X ∧
    (adapt_proposal_async s sampler).2.fX = s.fX ∧
    (adapt_proposal_async s sampler).2.fbest = s.fbest ∧
    (adapt_proposal_async s sampler).2.xbest = s.xbest ∧
    (adapt_proposal_async s sampler).2.asynchronous = s.asynchronous ∧
    (adapt_proposal_async s sampler).2.phase = s.phase ∧
    ((∃ x, (adapt_proposal_async s sampler).1 = some (Action.eval x false) ∧
        (adapt_proposal_async s sampler).2.Xpend = s.Xpend ++ [x] ∧
        (adapt_proposal_async s sampler).2.feval_pending = s.feval_pending + 1 ∧
        (adapt_proposal_async s sampler).2.feval_budget = s.feval_budget - 1) ∨
      ((adapt_proposal_async s sampler).1 = none ∧
        (adapt_proposal_async s sampler).2 = s)) := by
  unfold adapt_proposal_async
  cases sampler with
  | nil => exact ⟨rfl, rfl, rfl, rfl, rfl, rfl, rfl, Or.inr ⟨rfl, rfl⟩⟩
  | cons x rest =>
    exact ⟨rfl, rfl, rfl, rfl, rfl, rfl, rfl, Or.inl ⟨x, rfl, rfl, rfl, rfl⟩⟩

/-- `adapt_proposal_sync` effects. -/
theorem adapt_proposal_sync_effects (s : Strategy) :
    (adapt_proposal_sync s).2.numeval = s.numeval ∧
    (adapt_proposal_sync s).2.X = s.X ∧
    (adapt_proposal_sync s).2.fX = s.fX ∧
    (adapt_proposal_sync s).2.fbest = s.fbest ∧
    (adapt_proposal_sync s).2.xbest = s.xbest ∧
    (adapt_proposal_sync s).2.asynchronous = s.asynchronous ∧
    (adapt_proposal_sync s).2.phase = s.phase ∧
    ((∃ x, (adapt_proposal_sync s).1 = some (Action.eval x false) ∧
        (adapt_proposal_sync s).2.Xpend = s.Xpend ++ [x] ∧
        (adapt_proposal_sync s).2.feval_pending = s.feval_pending + 1 ∧
        (adapt_proposal_sync s).2.feval_budget = s.feval_budget - 1) ∨
      ((adapt_proposal_sync s).1 = none ∧ (adapt_proposal_sync s).2 = s)) := by
  unfold adapt_proposal_sync
  cases h : s.batch_queue.getLast? with
  | none => exact ⟨rfl, rfl, rfl, rfl, rfl, rfl, rfl, Or.inr ⟨rfl, rfl⟩⟩
  | some x =>
    exact ⟨rfl, rfl, rfl, rfl, rfl, rfl, rfl, Or.inl ⟨x, rfl, rfl, rfl, rfl⟩⟩

/-- `sync_refill` effects: the phase is set to 2, history fields are
untouched. -/
theorem sync_refill_effects (s : Strategy) (sampler : List Point) :
    (sync_refill s sampler).2.numeval = s.numeval ∧
    (sync_refill s sampler).2.X = s.X ∧
    (sync_refill s sampler).2.fX = s.fX ∧
    (sync_refill s sampler).2.fbest = s.fbest ∧
    (sync_refill s sampler).2.xbest = s.xbest ∧
    (sync_refill s sampler).2.asynchronous = s.asynchronous ∧
    (sync_refill s sampler).2.phase = 2 ∧
    ((∃ x, (sync_refill s sampler).1 = some (Action.eval x false) ∧
        (sync_refill s sampler).2.Xpend = s.Xpend ++ [x] ∧
        (sync_refill s sampler).2.feval_pending = s.feval_pending + 1 ∧
        (sync_refill s sampler).2.feval_budget = s.feval_budget - 1) ∨
      ((sync_refill s sampler).1 = none ∧
        (sync_refill s sampler).2.Xpend = s.Xpend ∧
        (sync_refill s sampler).2.feval_pending = s.feval_pending ∧
        (sync_refill s sampler).2.feval_budget = s.feval_budget)) := by
  unfold sync_refill
  obtain ⟨h1, h2, h3, h4, h5, h6, h7, h8⟩ :=
    adapt_proposal_sync_effects (make_batch { s with phase := 2 } sampler)
  refine ⟨h1.trans rfl, h2.trans rfl, h3.trans rfl, h4.trans rfl, h5.trans rfl,
    h6.trans rfl, h7.trans rfl, ?_⟩
  rcases h8 with ⟨x, hfst, hXp, hpend, hbud⟩ | ⟨hfst, heq⟩
  · exact Or.inl ⟨x, hfst, hXp.trans rfl, hpend.trans rfl, hbud.trans rfl⟩
  · exact Or.inr ⟨hfst, (congrArg Strategy.Xpend heq).trans rfl,
      (congrArg Strategy.feval_pending heq).trans rfl,
      (congrArg Strategy.feval_budget heq).trans rfl⟩

/-- Combined effects of one `propose_action` call: the completed history,
best-tracking fields, and `asynchronous` flag never change; the phase can
only move to 2, and only in synchronous mode; the call either emits an EVAL
proposal (vstacking its point onto `Xpend`, `feval_pending += 1`,
`feval_budget -= 1`) or leaves `Xpend`, `feval_pending`, `feval_budget`
unchanged. -/
theorem propose_action_effects (s : Strategy) (now : Nat) (sampler : List Point) :
    (propose_action s now sampler).2.numeval = s.numeval ∧
    (propose_action s now sampler).2.X = s.X ∧
    (propose_action s now sampler).2.fX = s.fX ∧
    (propose_action s now sampler).2.fbest = s.fbest ∧
    (propose_action s now sampler).2.xbest = s.xbest ∧
    (propose_action s now sampler).2.asynchronous = s.asynchronous ∧
    (s.asynchronous = true → (propose_action s now sampler).2.phase = s.phase) ∧
    (s.phase = 2 → (propose_action s now sampler).2.phase = 2) ∧
    ((∃ x b, (propose_action s now sampler).1 = some (Action.eval x b) ∧
        (propose_action s now sampler).2.Xpend = s.Xpend ++ [x] ∧
        (propose_action s now sampler).2.feval_pending = s.feval_pending + 1 ∧
        (propose_action s now sampler).2.feval_budget = s.feval_budget - 1) ∨
      ((propose_action s now sampler).2.Xpend = s.Xpend ∧
        (propose_action s now sampler).2.feval_pending = s.feval_pending ∧
        (propose_action s now sampler).2.feval_budget = s.feval_budget ∧
        ((propose_action s now sampler).1 = none ∨
          (propose_action s now sampler).1 = some Action.terminate))) := by
  unfold propose_action
  by_cases hstop : stopCond s now
  · rw [if_pos hstop]
    by_cases hp : s.feval_pending = 0
    · rw [if_pos hp]
      exact ⟨rfl, rfl, rfl, rfl, rfl, rfl, fun _ => rfl, fun h => h,
        Or.inr ⟨rfl, rfl, rfl, Or.inr rfl⟩⟩
    · rw [if_neg hp]
      exact ⟨rfl, rfl, rfl, rfl, rfl, rfl, fun _ => rfl, fun h => h,
        Or.inr ⟨rfl, rfl, rfl, Or.inl rfl⟩⟩
  · rw [if_neg hstop]
    by_cases hasync : s.asynchronous
    · rw [if_pos hasync]
      split
      · obtain ⟨h1, h2, h3, h4, h5, h6, h7, h8⟩ := init_proposal_effects s
        refine ⟨h1, h2, h3, h4, h5, h6, fun _ => h7, fun hph => h7.trans hph, ?_⟩
        rcases h8 with ⟨x, hfst, hXp, hpend, hbud⟩ | ⟨hfst, heq⟩
        · exact Or.inl ⟨x, true, hfst, hXp, hpend, hbud⟩
        · rw [heq]; exact Or.inr ⟨rfl, rfl, rfl, Or.inl hfst⟩
      · obtain ⟨h1, h2, h3, h4, h5, h6, h7, h8⟩ :=
          adapt_proposal_async_effects s sampler
        refine ⟨h1, h2, h3, h4, h5, h6, fun _ => h7, fun hph => h7.trans hph, ?_⟩
        rcases h8 with ⟨x, hfst, hXp, hpend, hbud⟩ | ⟨hfst, heq⟩
        · exact Or.inl ⟨x, false, hfst, hXp, hpend, hbud⟩
        · rw [heq]; exact Or.inr ⟨rfl, rfl, rfl, Or.inl hfst⟩
    · rw [if_neg hasync]
      split
      · by_cases hph1 : s.phase = 1
        · rw [if_pos hph1]
          obtain ⟨h1, h2, h3, h4, h5, h6, h7, h8⟩ := init_proposal_effects s
          refine ⟨h1, h2, h3, h4, h5, h6, fun _ => h7, fun hph => h7.trans hph, ?_⟩
          rcases h8 with ⟨x, hfst, hXp, hpend, hbud⟩ | ⟨hfst, heq⟩
          · exact Or.inl ⟨x, true, hfst, hXp, hpend, hbud⟩
          · rw [heq]; exact Or.inr ⟨rfl, rfl, rfl, Or.inl hfst⟩
        · rw [if_neg hph1]
          obtain ⟨h1, h2, h3, h4, h5, h6, h7, h8⟩ := adapt_proposal_sync_effects s
          refine ⟨h1, h2, h3, h4, h5, h6, fun _ => h7, fun hph => h7.trans hph, ?_⟩
          rcases h8 with ⟨x, hfst, hXp, hpend, hbud⟩ | ⟨hfst, heq⟩
          · exact Or.inl ⟨x, false, hfst, hXp, hpend, hbud⟩
          · rw [heq]; exact Or.inr ⟨rfl, rfl, rfl, Or.inl hfst⟩
      · by_cases hp : s.feval_pending = 0
        · rw [if_pos hp]
          obtain ⟨h1, h2, h3, h4, h5, h6, h7, h8⟩ := sync_refill_effects s sampler
          refine ⟨h1, h2, h3, h4, h5, h6,
            fun habs => absurd habs hasync, fun _ => h7, ?_⟩
          rcases h8 with ⟨x, hfst, hXp, hpend, hbud⟩ | ⟨hfst, hXp, hpend, hbud⟩
          · exact Or.inl ⟨x, false, hfst, hXp, hpend, hbud⟩
          · exact Or.inr ⟨hXp, hpend, hbud, Or.inl hfst⟩
        · rw [if_neg hp]
          exact ⟨rfl, rfl, rfl, rfl, rfl, rfl, fun _ => rfl, fun h => h,
            Or.inr ⟨rfl, rfl, rfl, Or.inl rfl⟩⟩

/-! ## Budget conservation, step by step -/

/-- `make_proposal` conserves the budget sum. -/
theorem budgetSum_make_proposal (s : Strategy) (x : Point) :
    budgetSum (make_proposal s x) = budgetSum s := by
  simp only [make_proposal, budgetSum]; omega

/-- `on_initial_rejected` conserves the budget sum. -/
theorem budgetSum_on_initial_rejected (s : Strategy) (x : Point) :
    budgetSum (on_initial_rejected s x) = budgetSum s := by
  simp only [on_initial_rejected, remove_closest_pending, budgetSum]; omega

/-- `on_initial_completed` conserves the budget sum. -/
theorem budgetSum_on_initial_completed (s : Strategy) (x : Point) (v : Int) :
    budgetSum (on_initial_completed s x v) = budgetSum s := by
  simp only [on_initial_completed, remove_closest_pending, budgetSum,
    applyStop_numeval, applyStop_feval_budget, applyStop_feval_pending]
  omega

/-- `on_initial_aborted` conserves the budget sum. -/
theorem budgetSum_on_initial_aborted (s : Strategy) (x : Point) :
    budgetSum (on_initial_aborted s x) = budgetSum s := by
  simp only [on_initial_aborted, remove_closest_pending, budgetSum]; omega

/-- `on_adapt_reject` conserves the budget sum. -/
theorem budgetSum_on_adapt_reject (s : Strategy) (x : Point) :
    budgetSum (on_adapt_reject s x) = budgetSum s := by
  simp only [on_adapt_reject, remove_closest_pending, budgetSum]; omega

/-- `on_adapt_completed` conserves the budget sum. -/
theorem budgetSum_on_adapt_completed (s : Strategy) (x : Point) (v : Int) :
    budgetSum (on_adapt_completed s x v) = budgetSum s := by
  simp only [on_adapt_completed, remove_closest_pending, budgetSum,
    applyStop_numeval, applyStop_feval_budget, applyStop_feval_pending]
  omega

/-- `on_adapt_aborted` conserves the budget sum. -/
theorem budgetSum_on_adapt_aborted (s : Strategy) (x : Point) :
    budgetSum (on_adapt_aborted s x) = budgetSum s := by
  simp only [on_adapt_aborted, remove_closest_pending, budgetSum]; omega

/-- A propose event leaves the strategy state at `propose_action`'s result. -/
theorem stepEv_propose_strat (σ : Sys) (now : Nat) (sampler : List Point)
    (σ' : Sys) (h : stepEv σ (.propose now sampler) = some σ') :
    σ'.strat = (propose_action σ.strat now sampler).2 := by
  replace h : stepPropose σ now sampler = some σ' := h
  unfold stepPropose at h
  split at h <;> { injection h with h; exact (congrArg Sys.strat h.symm) }

/-- The strategy state after an accept event. -/
theorem stepAccept_strat (σ : Sys) (i : Nat) (σ' : Sys)
    (h : stepAccept σ i = some σ') :
    ∃ f, σ.inflight[i]? = some f ∧ f.accepted = false ∧
      σ'.strat = (if f.isInit then on_initial_accepted σ.strat
                  else on_adapt_accept σ.strat) ∧
      σ'.inflight = σ.inflight.set i { f with accepted := true } := by
  unfold stepAccept at h
  split at h
  case h_1 f hf =>
    split at h
    · exact absurd h (by simp)
    · injection h with h
      exact ⟨f, hf, by simp_all, (congrArg Sys.strat h.symm),
        (congrArg Sys.inflight h.symm)⟩
  case h_2 => exact absurd h (by simp)

/-- The strategy state after a reject event. -/
theorem stepReject_strat (σ : Sys) (i : Nat) (σ' : Sys)
    (h : stepReject σ i = some σ') :
    ∃ f, σ.inflight[i]? = some f ∧ f.accepted = false ∧
      σ'.strat = (if f.isInit then on_initial_rejected σ.strat f.x
                  else on_adapt_reject σ.strat f.x) ∧
      σ'.inflight = σ.inflight.eraseIdx i := by
  unfold stepReject at h
  split at h
  case h_1 f hf =>
    split at h
    · exact absurd h (by simp)
    · injection h with h
      exact ⟨f, hf, by simp_all, (congrArg Sys.strat h.symm),
        (congrArg Sys.inflight h.symm)⟩
  case h_2 => exact absurd h (by simp)

/-- The strategy state after a completion event. -/
theorem stepComplete_strat (σ : Sys) (i : Nat) (v : Int) (σ' : Sys)
    (h : stepComplete σ i v = some σ') :
    ∃ f, σ.inflight[i]? = some f ∧ f.accepted = true ∧
      σ'.strat = (if f.isInit then on_initial_completed σ.strat f.x v
                  else on_adapt_completed σ.strat f.x v) ∧
      σ'.inflight = σ.inflight.eraseIdx i := by
  unfold stepComplete at h
  split at h
  case h_1 f hf =>
    split at h
    case isTrue hacc =>
      injection h with h
      exact ⟨f, hf, hacc, (congrArg Sys.strat h.symm),
        (congrArg Sys.inflight h.symm)⟩
    case isFalse => exact absurd h (by simp)
  case h_2 => exact absurd h (by simp)

/-- The strategy state after an abort event. -/
theorem stepAbort_strat (σ : Sys) (i : Nat) (σ' : Sys)
    (h : stepAbort σ i = some σ') :
    ∃ f, σ.inflight[i]? = some f ∧ f.accepted = true ∧
      σ'.strat = (if f.isInit then on_initial_aborted σ.strat f.x
                  else on_adapt_aborted σ.strat f.x) ∧
      σ'.inflight = σ.inflight.eraseIdx i := by
  unfold stepAbort at h
  split at h
  case h_1 f hf =>
    split at h
    case isTrue hacc =>
      injection h with h
      exact ⟨f, hf, hacc, (congrArg Sys.strat h.symm),
        (congrArg Sys.inflight h.symm)⟩
    case isFalse => exact absurd h (by simp)
  case h_2 => exact absurd h (by simp)

/-- Every event conserves the budget sum. -/
theorem stepEv_budgetSum (σ σ' : Sys) (e : Ev) (h : stepEv σ e = some σ') :
    budgetSum σ'.strat = budgetSum σ.strat := by
  cases e with
  | propose now sampler =>
    rw [stepEv_propose_strat σ now sampler σ' h]
    have hnum := (propose_action_effects σ.strat now sampler).1
    rcases (propose_action_effects σ.strat now sampler).2.2.2.2.2.2.2.2 with
      ⟨x, b, _, _, hpend, hbud⟩ | ⟨_, hpend, hbud, _⟩
    · simp only [budgetSum, hpend, hbud, hnum]
      omega
    · simp only [budgetSum, hpend, hbud, hnum]
  | accept i =>
    obtain ⟨f, hf, hacc, hstrat, hinf⟩ := stepAccept_strat σ i σ' h
    rw [hstrat]
    cases f.isInit <;>
      simp [budgetSum, on_initial_accepted, on_adapt_accept]
  | reject i =>
    obtain ⟨f, hf, hacc, hstrat, hinf⟩ := stepReject_strat σ i σ' h
    rw [hstrat]
    cases f.isInit
    · rw [if_neg (by simp)]
      exact budgetSum_on_adapt_reject σ.strat f.x
    · rw [if_pos rfl]
      exact budgetSum_on_initial_rejected σ.strat f.x
  | complete i v =>
    obtain ⟨f, hf, hacc, hstrat, hinf⟩ := stepComplete_strat σ i v σ' h
    rw [hstrat]
    cases f.isInit
    · rw [if_neg (by simp)]
      exact budgetSum_on_adapt_completed σ.strat f.x v
    · rw [if_pos rfl]
      exact budgetSum_on_initial_completed σ.strat f.x v
  | abort i =>
    obtain ⟨f, hf, hacc, hstrat, hinf⟩ := stepAbort_strat σ i σ' h
    rw [hstrat]
    cases f.isInit
    · rw [if_neg (by simp)]
      exact budgetSum_on_adapt_aborted σ.strat f.x
    · rw [if_pos rfl]
      exact budgetSum_on_initial_aborted σ.strat f.x

/-- Completed-history effects of the terminal handlers: a completion appends
one row to `X` and one value to `fX` and increments `numeval`; the other
terminal handlers leave all three unchanged. -/
theorem on_initial_completed_hist (s : Strategy) (x : Point) (v : Int) :
    (on_initial_completed s x v).X = s.X ++ [x] ∧
    (on_initial_completed s x v).fX = s.fX ++ [v] ∧
    (on_initial_completed s x v).numeval = s.numeval + 1 ∧
    (on_initial_completed s x v).fbest = s.fbest ∧
    (on_initial_completed s x v).xbest = s.xbest ∧
    (on_initial_completed s x v).phase = s.phase ∧
    (on_initial_completed s x v).asynchronous = s.asynchronous := by
  refine ⟨?_, ?_, ?_, ?_, ?_, ?_, ?_⟩ <;>
    simp [on_initial_completed, remove_closest_pending]

/-- Same for the adaptive-phase completion handler. -/
theorem on_adapt_completed_hist (s : Strategy) (x : Point) (v : Int) :
    (on_adapt_completed s x v).X = s.X ++ [x] ∧
    (on_adapt_completed s x v).fX = s.fX ++ [v] ∧
    (on_adapt_completed s x v).numeval = s.numeval + 1 ∧
    (on_adapt_completed s x v).fbest = s.fbest ∧
    (on_adapt_completed s x v).xbest = s.xbest ∧
    (on_adapt_completed s x v).phase = s.phase ∧
    (on_adapt_completed s x v).asynchronous = s.asynchronous := by
  refine ⟨?_, ?_, ?_, ?_, ?_, ?_, ?_⟩ <;>
    simp [on_adapt_completed, remove_closest_pending]

/-- The non-completion handlers leave the completed history, the best-point
fields, the phase, and the mode flag unchanged. -/
theorem handlers_hist_frame (s : Strategy) (x : Point) :
    (on_initial_accepted s).X = s.X ∧ (on_initial_accepted s).fX = s.fX ∧
    (on_initial_accepted s).numeval = s.numeval ∧
    (on_initial_accepted s).fbest = s.fbest ∧
    (on_initial_accepted s).xbest = s.xbest ∧
    (on_initial_accepted s).phase = s.phase ∧
    (on_initial_accepted s).asynchronous = s.asynchronous ∧
    (on_adapt_accept s).X = s.X ∧ (on_adapt_accept s).fX = s.fX ∧
    (on_adapt_accept s).numeval = s.numeval ∧
    (on_adapt_accept s).fbest = s.fbest ∧
    (on_adapt_accept s).xbest = s.xbest ∧
    (on_adapt_accept s).phase = s.phase ∧
    (on_adapt_accept s).asynchronous = s.asynchronous ∧
    (on_initial_rejected s x).X = s.X ∧ (on_initial_rejected s x).fX = s.fX ∧
    (on_initial_rejected s x).numeval = s.numeval ∧
    (on_initial_rejected s x).fbest = s.fbest ∧
    (on_initial_rejected s x).xbest = s.xbest ∧
    (on_initial_rejected s x).phase = s.phase ∧
    (on_initial_rejected s x).asynchronous = s.asynchronous ∧
    (on_initial_aborted s x).X = s.X ∧ (on_initial_aborted s x).fX = s.fX ∧
    (on_initial_aborted s x).numeval = s.numeval ∧
    (on_initial_aborted s x).fbest = s.fbest ∧
    (on_initial_aborted s x).xbest = s.xbest ∧
    (on_initial_aborted s x).phase = s.phase ∧
    (on_initial_aborted s x).asynchronous = s.asynchronous ∧
    (on_adapt_reject s x).X = s.X ∧ (on_adapt_reject s x).fX = s.fX ∧
    (on_adapt_reject s x).numeval = s.numeval ∧
    (on_adapt_reject s x).fbest = s.fbest ∧
    (on_adapt_reject s x).xbest = s.xbest ∧
    (on_adapt_reject s x).phase = s.phase ∧
    (on_adapt_reject s x).asynchronous = s.asynchronous ∧
    (on_adapt_aborted s x).X = s.X ∧ (on_adapt_aborted s x).fX = s.fX ∧
    (on_adapt_aborted s x).numeval = s.numeval ∧
    (on_adapt_aborted s x).fbest = s.fbest ∧
    (on_adapt_aborted s x).xbest = s.xbest ∧
    (on_adapt_aborted s x).phase = s.phase ∧
    (on_adapt_aborted s x).asynchronous = s.asynchronous := by
  refine ⟨rfl, rfl, rfl, rfl, rfl, rfl, rfl, rfl, rfl, rfl, rfl, rfl, rfl, rfl,
    rfl, rfl, rfl, rfl, rfl, rfl, rfl, rfl, rfl, rfl, rfl, rfl, rfl, rfl,
    rfl, rfl, rfl, rfl, rfl, rfl, rfl, rfl, rfl, rfl, rfl, rfl, rfl, rfl⟩

/-- Induction principle for event runs: a property preserved by every step
holds at the end of every successful run. -/
theorem runWith_preserve (step : Sys → Ev → Option Sys) (P : Sys → Prop)
    (hstep : ∀ σ e σ', step σ e = some σ' → P σ → P σ') :
    ∀ (evs : List Ev) (σ0 σ : Sys),
      runWith step σ0 evs = some σ → P σ0 → P σ := by
  intro evs
  induction evs with
  | nil =>
    intro σ0 σ h h0
    unfold runWith at h
    injection h with h
    rwa [← h]
  | cons e rest ih =>
    intro σ0 σ h h0
    unfold runWith at h
    split at h
    case h_1 σ1 hs => exact ih σ1 σ h (hstep σ0 e σ1 hs h0)
    case h_2 => exact absurd h (by simp)

/-! ## List helpers -/

/-- Setting an index to the value it already holds is a no-op. -/
theorem set_self_of_getElem {α : Type} :
    ∀ (l : List α) (i : Nat) (a : α), l[i]? = some a → l.set i a = l
  | [], _, _, h => by simp at h
  | b :: t, 0, a, h => by
    simp only [List.getElem?_cons_zero, Option.some.injEq] at h
    simp [h]
  | b :: t, i + 1, a, h => by
    simp only [List.getElem?_cons_succ] at h
    simp [set_self_of_getElem t i a h]

/-- `eraseIdx` commutes with `map`. -/
theorem eraseIdx_map_comm {α β : Type} (g : α → β) :
    ∀ (l : List α) (i : Nat), (l.eraseIdx i).map g = (l.map g).eraseIdx i
  | [], _ => by simp
  | _ :: _, 0 => by simp
  | b :: t, i + 1 => by
    simp only [List.eraseIdx_cons_succ, List.map_cons]
    exact congrArg (g b :: ·) (eraseIdx_map_comm g t i)

/-- On a duplicate-free list whose `i`-th element is `a`, filtering `a` out
equals removing the `i`-th position. -/
theorem nodup_filter_ne_eq_eraseIdx {α : Type} [DecidableEq α] :
    ∀ (F : List α) (i : Nat) (a : α), F.Nodup → F[i]? = some a →
      F.filter (fun y => y ≠ a) = F.eraseIdx i
  | [], _, _, _, h => by simp at h
  | b :: t, 0, a, hnd, h => by
    simp only [List.getElem?_cons_zero, Option.some.injEq] at h
    subst h
    obtain ⟨hbt, _⟩ := List.nodup_cons.mp hnd
    rw [List.eraseIdx_cons_zero, List.filter_cons_of_neg (by simp)]
    refine List.filter_eq_self.mpr (fun y hy => ?_)
    simp only [ne_eq, decide_eq_true_eq]
    exact fun hyb => hbt (hyb ▸ hy)
  | b :: t, i + 1, a, hnd, h => by
    simp only [List.getElem?_cons_succ] at h
    obtain ⟨hbt, hdt⟩ := List.nodup_cons.mp hnd
    have hba : b ≠ a := fun he => hbt (he ▸ List.getElem?_mem h)
    rw [List.eraseIdx_cons_succ, List.filter_cons_of_pos (by simp [hba])]
    exact congrArg (b :: ·) (nodup_filter_ne_eq_eraseIdx t i a hdt h)

/-! ## Pending-set bookkeeping of the handlers -/

/-- `Xpend` and `feval_pending` after each terminal handler. -/
theorem on_initial_rejected_pend (s : Strategy) (x : Point) :
    (on_initial_rejected s x).Xpend = s.Xpend.filter (fun y => y ≠ x) ∧
    (on_initial_rejected s x).feval_pending = s.feval_pending - 1 :=
  ⟨by simp [on_initial_rejected, remove_closest_pending], rfl⟩

/-- `Xpend` and `feval_pending` after `on_initial_completed`. -/
theorem on_initial_completed_pend (s : Strategy) (x : Point) (v : Int) :
    (on_initial_completed s x v).Xpend = s.Xpend.filter (fun y => y ≠ x) ∧
    (on_initial_completed s x v).feval_pending = s.feval_pending - 1 := by
  constructor <;> simp [on_initial_completed, remove_closest_pending]

/-- `Xpend` and `feval_pending` after `on_initial_aborted`. -/
theorem on_initial_aborted_pend (s : Strategy) (x : Point) :
    (on_initial_aborted s x).Xpend = s.Xpend.filter (fun y => y ≠ x) ∧
    (on_initial_aborted s x).feval_pending = s.feval_pending - 1 :=
  ⟨rfl, rfl⟩

/-- `Xpend` and `feval_pending` after `on_adapt_reject`. -/
theorem on_adapt_reject_pend (s : Strategy) (x : Point) :
    (on_adapt_reject s x).Xpend = s.Xpend.filter (fun y => y ≠ x) ∧
    (on_adapt_reject s x).feval_pending = s.feval_pending - 1 :=
  ⟨rfl, rfl⟩

/-- `Xpend` and `feval_pending` after `on_adapt_completed`. -/
theorem on_adapt_completed_pend (s : Strategy) (x : Point) (v : Int) :
    (on_adapt_completed s x v).Xpend = s.Xpend.filter (fun y => y ≠ x) ∧
    (on_adapt_completed s x v).feval_pending = s.feval_pending - 1 := by
  constructor <;> simp [on_adapt_completed, remove_closest_pending]

/-- `Xpend` and `feval_pending` after `on_adapt_aborted`. -/
theorem on_adapt_aborted_pend (s : Strategy) (x : Point) :
    (on_adapt_aborted s x).Xpend = s.Xpend.filter (fun y => y ≠ x) ∧
    (on_adapt_aborted s x).feval_pending = s.feval_pending - 1 :=
  ⟨rfl, rfl⟩

/-- The effect of a propose event on the in-flight list. -/
theorem stepPropose_cases (σ : Sys) (now : Nat) (sampler : List Point) (σ' : Sys)
    (h : stepPropose σ now sampler = some σ') :
    σ'.strat = (propose_action σ.strat now sampler).2 ∧
    ((∃ x b, (propose_action σ.strat now sampler).1 = some (Action.eval x b) ∧
        σ'.inflight = ⟨b, false, x⟩ :: σ.inflight) ∨
      (σ'.inflight = σ.inflight ∧
        ∀ x b, (propose_action σ.strat now sampler).1 ≠ some (Action.eval x b))) := by
  unfold stepPropose at h
  split at h
  case h_1 x b heq =>
    injection h with h
    subst h
    exact ⟨rfl, Or.inl ⟨x, b, heq, rfl⟩⟩
  case h_2 _ hne =>
    injection h with h
    subst h
    exact ⟨rfl, Or.inr ⟨rfl, fun x b hh => hne x b hh⟩⟩

/-! ## The pending-set invariant on duplicate-free runs -/

/-- Pending-set bookkeeping matches the controller's in-flight proposals:
the rows of `Xpend` are (a permutation of) the in-flight points, and
`feval_pending` counts them. -/
def pendingMatch (σ : Sys) : Prop :=
  σ.strat.Xpend.Perm (σ.inflight.map Flight.x) ∧
  σ.strat.feval_pending = (σ.inflight.length : Int)

/-- One duplicate-free step preserves `pendingMatch` (and duplicate-freedom
of the in-flight points is enforced by `stepFresh` itself). -/
theorem stepFresh_pendingMatch (σ σ' : Sys) (e : Ev)
    (h : stepFresh σ e = some σ')
    (hP : pendingMatch σ ∧ (σ.inflight.map Flight.x).Nodup) :
    pendingMatch σ' ∧ (σ'.inflight.map Flight.x).Nodup := by
  obtain ⟨⟨hperm, hlen⟩, hnd⟩ := hP
  have hstep : stepEv σ e = some σ' ∧ (σ'.inflight.map Flight.x).Nodup := by
    unfold stepFresh at h
    split at h
    case h_1 τ hτ =>
      by_cases hn : (τ.inflight.map Flight.x).Nodup
      · rw [if_pos hn] at h
        injection h with h
        subst h
        exact ⟨hτ, hn⟩
      · rw [if_neg hn] at h
        exact absurd h (by simp)
    case h_2 => exact absurd h (by simp)
  obtain ⟨hs, hnd'⟩ := hstep
  refine ⟨?_, hnd'⟩
  cases e with
  | propose now sampler =>
    obtain ⟨hstrat, hcase⟩ := stepPropose_cases σ now sampler σ' hs
    rcases (propose_action_effects σ.strat now sampler).2.2.2.2.2.2.2.2 with
      ⟨x, b, hfst, hXp, hpend, _⟩ | ⟨hXp, hpend, _, hnofst⟩
    · rcases hcase with ⟨x', b', hfst', hinf⟩ | ⟨hinf, hne⟩
      · have hx : x' = x ∧ b' = b := by
          rw [hfst] at hfst'
          injection hfst' with hfst'
          cases hfst'
          exact ⟨rfl, rfl⟩
        obtain ⟨hx1, hx2⟩ := hx
        subst hx1
        constructor
        · rw [hstrat, hXp, hinf]
          simp only [List.map_cons]
          exact (hperm.append_right [x']).trans (List.perm_append_singleton _ _)
        · rw [hstrat, hpend, hinf, hlen]
          simp only [List.length_cons]
          push_cast
          ring
      · exact absurd hfst (hne x b)
    · rcases hcase with ⟨x', b', hfst', hinf⟩ | ⟨hinf, _⟩
      · rcases hnofst with hn | hn <;> rw [hn] at hfst' <;> exact absurd hfst' (by simp)
      · exact ⟨by rw [hstrat, hXp, hinf]; exact hperm,
          by rw [hstrat, hpend, hinf]; exact hlen⟩
  | accept i =>
    obtain ⟨f, hf, hacc, hstrat, hinf⟩ := stepAccept_strat σ i σ' hs
    have hmap : σ'.inflight.map Flight.x = σ.inflight.map Flight.x := by
      rw [hinf, List.map_set]
      exact set_self_of_getElem _ i f.x (by rw [List.getElem?_map, hf]; rfl)
    have hXp : σ'.strat.Xpend = σ.strat.Xpend := by
      rw [hstrat]; cases f.isInit <;> simp [on_initial_accepted, on_adapt_accept]
    have hpend : σ'.strat.feval_pending = σ.strat.feval_pending := by
      rw [hstrat]; cases f.isInit <;> simp [on_initial_accepted, on_adapt_accept]
    have hlength : σ'.inflight.length = σ.inflight.length := by
      rw [hinf, List.length_set]
    exact ⟨by rw [hXp, hmap]; exact hperm, by rw [hpend, hlength]; exact hlen⟩
  | reject i =>
    obtain ⟨f, hf, hacc, hstrat, hinf⟩ := stepReject_strat σ i σ' hs
    have hXp : σ'.strat.Xpend
        = σ.strat.Xpend.filter (fun y => y ≠ f.x) := by
      rw [hstrat]; cases f.isInit
      · rw [if_neg (by simp)]; exact (on_adapt_reject_pend σ.strat f.x).1
      · rw [if_pos rfl]; exact (on_initial_rejected_pend σ.strat f.x).1
    have hpend : σ'.strat.feval_pending = σ.strat.feval_pending - 1 := by
      rw [hstrat]; cases f.isInit
      · rw [if_neg (by simp)]; exact (on_adapt_reject_pend σ.strat f.x).2
      · rw [if_pos rfl]; exact (on_initial_rejected_pend σ.strat f.x).2
    have hFf : (σ.inflight.map Flight.x)[i]? = some f.x := by
      rw [List.getElem?_map, hf]; rfl
    have hi : i < σ.inflight.length :=
      (List.getElem?_eq_some_iff.mp hf).1
    constructor
    · rw [hXp, hinf, eraseIdx_map_comm,
        ← nodup_filter_ne_eq_eraseIdx (σ.inflight.map Flight.x) i f.x hnd hFf]
      exact hperm.filter _
    · rw [hpend, hinf, hlen, List.length_eraseIdx_of_lt hi]
      omega
  | complete i v =>
    obtain ⟨f, hf, hacc, hstrat, hinf⟩ := stepComplete_strat σ i v σ' hs
    have hXp : σ'.strat.Xpend
        = σ.strat.Xpend.filter (fun y => y ≠ f.x) := by
      rw [hstrat]; cases f.isInit
      · rw [if_neg (by simp)]; exact (on_adapt_completed_pend σ.strat f.x v).1
      · rw [if_pos rfl]; exact (on_initial_completed_pend σ.strat f.x v).1
    have hpend : σ'.strat.feval_pending = σ.strat.feval_pending - 1 := by
      rw [hstrat]; cases f.isInit
      · rw [if_neg (by simp)]; exact (on_adapt_completed_pend σ.strat f.x v).2
      · rw [if_pos rfl]; exact (on_initial_completed_pend σ.strat f.x v).2
    have hFf : (σ.inflight.map Flight.x)[i]? = some f.x := by
      rw [List.getElem?_map, hf]; rfl
    have hi : i < σ.inflight.length :=
      (List.getElem?_eq_some_iff.mp hf).1
    constructor
    · rw [hXp, hinf, eraseIdx_map_comm,
        ← nodup_filter_ne_eq_eraseIdx (σ.inflight.map Flight.x) i f.x hnd hFf]
      exact hperm.filter _
    · rw [hpend, hinf, hlen, List.length_eraseIdx_of_lt hi]
      omega
  | abort i =>
    obtain ⟨f, hf, hacc, hstrat, hinf⟩ := stepAbort_strat σ i σ' hs
    have hXp : σ'.strat.Xpend
        = σ.strat.Xpend.filter (fun y => y ≠ f.x) := by
      rw [hstrat]; cases f.isInit
      · rw [if_neg (by simp)]; exact (on_adapt_aborted_pend σ.strat f.x).1
      · rw [if_pos rfl]; exact (on_initial_aborted_pend σ.strat f.x).1
    have hpend : σ'.strat.feval_pending = σ.strat.feval_pending - 1 := by
      rw [hstrat]; cases f.isInit
      · rw [if_neg (by simp)]; exact (on_adapt_aborted_pend σ.strat f.x).2
      · rw [if_pos rfl]; exact (on_initial_aborted_pend σ.strat f.x).2
    have hFf : (σ.inflight.map Flight.x)[i]? = some f.x := by
      rw [List.getElem?_map, hf]; rfl
    have hi : i < σ.inflight.length :=
      (List.getElem?_eq_some_iff.mp hf).1
    constructor
    · rw [hXp, hinf, eraseIdx_map_comm,
        ← nodup_filter_ne_eq_eraseIdx (σ.inflight.map Flight.x) i f.x hnd hFf]
      exact hperm.filter _
    · rw [hpend, hinf, hlen, List.length_eraseIdx_of_lt hi]
      omega

/-! ## C1 — budget conservation -/

/-- C1 (amended).  In every reachable state,
`feval_budget + numeval + feval_pending` equals the ABSOLUTE VALUE of the
configured budget — also under a time-budget configuration (where
`self.maxeval` is `np.inf` but `feval_budget` is initialised to the finite
`abs(max_evals)`), contrary to the claim's "+∞" reading. -/
theorem budget_conservation (cfg : Config) (σ : Sys) (h : Reachable cfg σ) :
    σ.strat.feval_budget + (σ.strat.numeval : Int) + σ.strat.feval_pending
      = (cfg.max_evals.natAbs : Int) := by
  obtain ⟨evs, hrun⟩ := h
  have h0 : budgetSum (initSys cfg).strat = (cfg.max_evals.natAbs : Int) := by
    simp [initSys, initStrategy, budgetSum]
  exact runWith_preserve stepEv
    (fun τ => budgetSum τ.strat = (cfg.max_evals.natAbs : Int))
    (fun τ e τ' hs hτ => (stepEv_budgetSum τ τ' e hs).trans hτ)
    evs (initSys cfg) σ hrun h0

/-- Witness for C1: the freshly constructed time-budget strategy
(`max_evals = -5`) conserves the finite sum `5`. -/
theorem budget_conservation_witness :
    (initSys cfgTime).strat.feval_budget
        + ((initSys cfgTime).strat.numeval : Int)
        + (initSys cfgTime).strat.feval_pending
      = (cfgTime.max_evals.natAbs : Int) :=
  budget_conservation cfgTime (initSys cfgTime) ⟨[], rfl⟩

/-- Counterexample for C1 as stated: under the time-budget configuration
`max_evals = -5` the claim makes the conserved quantity `+∞`, but in the
(reachable) initial state the sum is the finite `5`. -/
theorem budget_conservation_claim_false :
    Reachable cfgTime (initSys cfgTime) ∧
      (((initSys cfgTime).strat.feval_budget
          + ((initSys cfgTime).strat.numeval : Int)
          + (initSys cfgTime).strat.feval_pending : Int) : WithTop Int)
        ≠ claimedMaxEvals cfgTime.max_evals :=
  ⟨⟨[], rfl⟩, by decide⟩

/-! ## C2 — pending-set and completed-set consistency -/

/-- One step preserves `rows(X) == rows(fX) == numeval`. -/
theorem stepEv_lengths (σ σ' : Sys) (e : Ev) (h : stepEv σ e = some σ')
    (hP : σ.strat.X.length = σ.strat.numeval ∧
      σ.strat.fX.length = σ.strat.numeval) :
    σ'.strat.X.length = σ'.strat.numeval ∧
      σ'.strat.fX.length = σ'.strat.numeval := by
  cases e with
  | propose now sampler =>
    obtain ⟨h1, h2, h3, _⟩ := propose_action_effects σ.strat now sampler
    rw [stepEv_propose_strat σ now sampler σ' h, h1, h2, h3]
    exact hP
  | accept i =>
    obtain ⟨f, _, _, hstrat, _⟩ := stepAccept_strat σ i σ' h
    rw [hstrat]
    cases f.isInit
    · rw [if_neg (by simp)]; exact hP
    · rw [if_pos rfl]; exact hP
  | reject i =>
    obtain ⟨f, _, _, hstrat, _⟩ := stepReject_strat σ i σ' h
    rw [hstrat]
    cases f.isInit
    · rw [if_neg (by simp)]; exact hP
    · rw [if_pos rfl]; exact hP
  | complete i v =>
    obtain ⟨f, _, _, hstrat, _⟩ := stepComplete_strat σ i v σ' h
    rw [hstrat]
    cases f.isInit
    · rw [if_neg (by simp)]
      obtain ⟨hX, hfX, hnum, _⟩ := on_adapt_completed_hist σ.strat f.x v
      rw [hX, hfX, hnum]
      constructor <;> simp [hP.1, hP.2]
    · rw [if_pos rfl]
      obtain ⟨hX, hfX, hnum, _⟩ := on_initial_completed_hist σ.strat f.x v
      rw [hX, hfX, hnum]
      constructor <;> simp [hP.1, hP.2]
  | abort i =>
    obtain ⟨f, _, _, hstrat, _⟩ := stepAbort_strat σ i σ' h
    rw [hstrat]
    cases f.isInit
    · rw [if_neg (by simp)]; exact hP
    · rw [if_pos rfl]; exact hP

/-- C2 (amended).  `rows(X) == rows(fX) == numeval` holds in every reachable
state; `rows(Xpend) == feval_pending` holds in every state reachable through
runs in which no point is ever proposed while an equal point is still
pending.  (With duplicate pending points the equality can break, because one
terminal event removes every matching `Xpend` row while decrementing
`feval_pending` by 1 — see the counterexample.) -/
theorem pending_completed_consistency :
    (∀ cfg σ, Reachable cfg σ →
      σ.strat.X.length = σ.strat.numeval ∧
        σ.strat.fX.length = σ.strat.numeval) ∧
    (∀ cfg σ, FreshReachable cfg σ →
      (σ.strat.Xpend.length : Int) = σ.strat.feval_pending) := by
  constructor
  · rintro cfg σ ⟨evs, hrun⟩
    exact runWith_preserve stepEv
      (fun τ => τ.strat.X.length = τ.strat.numeval ∧
        τ.strat.fX.length = τ.strat.numeval)
      (fun τ e τ' hs hτ => stepEv_lengths τ τ' e hs hτ)
      evs (initSys cfg) σ hrun ⟨rfl, rfl⟩
  · rintro cfg σ ⟨evs, hrun⟩
    have hinv := runWith_preserve stepFresh
      (fun τ => pendingMatch τ ∧ (τ.inflight.map Flight.x).Nodup)
      (fun τ e τ' hs hτ => stepFresh_pendingMatch τ τ' e hs hτ)
      evs (initSys cfg) σ hrun
      ⟨⟨List.Perm.nil, by simp [initSys, initStrategy]⟩, by simp [initSys]⟩
    obtain ⟨⟨hperm, hlen⟩, _⟩ := hinv
    have hl : σ.strat.Xpend.length = σ.inflight.length :=
      hperm.length_eq.trans (List.length_map _ _)
    rw [hl, hlen]

/-- Witness for C2: the freshly constructed system satisfies both equalities
(via the empty run, which is duplicate-free). -/
theorem pending_completed_consistency_witness :
    ((initSys cfgAsync).strat.X.length = (initSys cfgAsync).strat.numeval ∧
      (initSys cfgAsync).strat.fX.length = (initSys cfgAsync).strat.numeval) ∧
    ((initSys cfgAsync).strat.Xpend.length : Int)
      = (initSys cfgAsync).strat.feval_pending :=
  ⟨pending_completed_consistency.1 cfgAsync (initSys cfgAsync) ⟨[], rfl⟩,
    pending_completed_consistency.2 cfgAsync (initSys cfgAsync) ⟨[], rfl⟩⟩

/-- The run used to refute `rows(Xpend) == feval_pending`: complete the
initial point, then let the (external) adaptive sampler propose the same
point `[1]` twice, and complete one of the two pending proposals.  The
completion handler removes BOTH matching `Xpend` rows while decrementing
`feval_pending` once. -/
def dupEvents : List Ev :=
  [.propose 0 [], .accept 0, .complete 0 5,
   .propose 0 [[1]], .propose 0 [[1]], .accept 0, .complete 0 7]

/-- Counterexample for C2 as stated: a reachable state (two simultaneous
pending proposals of the same point, one completed) with `rows(Xpend) = 0`
but `feval_pending = 1`. -/
theorem pending_set_claim_false :
    ∃ σ, Reachable cfgAsync σ ∧
      (σ.strat.Xpend.length : Int) ≠ σ.strat.feval_pending := by
  refine ⟨(runWith stepEv (initSys cfgAsync) dupEvents).get (by decide),
    ⟨dupEvents, (Option.some_get (by decide)).symm⟩, ?_⟩
  decide

/-! ## C3 — best tracking -/

/-- C3 (code bug).  `GlobalStrategy` never writes `xbest`/`fbest`: after the
initial point `[0]` completes with value `0`, the completed log is
`fX = [0]` (so `min(fX) = 0`) yet `fbest` still holds the `np.inf` sentinel
(modelled `none`) and `xbest` is still `None` — the handlers lack the
`if record.value < self.fbest` update that the spec (and the sibling
commented-out implementation) prescribe. -/
theorem best_tracking_code_bug :
    ∃ σ, Reachable cfgAsync σ ∧ σ.strat.fX = [0] ∧ σ.strat.numeval = 1 ∧
      σ.strat.fbest = none ∧ σ.strat.xbest = none := by
  refine ⟨(runWith stepEv (initSys cfgAsync)
      [.propose 0 [], .accept 0, .complete 0 0]).get (by decide),
    ⟨[.propose 0 [], .accept 0, .complete 0 0],
      (Option.some_get (by decide)).symm⟩, ?_, ?_, ?_, ?_⟩ <;> decide

/-! ## C8 — phase transitions -/

/-- C8 (amended).  The phase flag is advanced (1 → 2) only by the
synchronous refill branch of `propose_action` and never moves back: in an
asynchronous configuration every reachable state still has `phase = 1`
(even after the initial design and `init_pending` are exhausted), and once
`phase = 2` every event preserves it. -/
theorem phase_behavior :
    (∀ cfg σ, Reachable cfg σ → cfg.asynchronous = true →
      σ.strat.phase = 1) ∧
    (∀ σ e σ', stepEv σ e = some σ' → σ.strat.phase = 2 →
      σ'.strat.phase = 2) := by
  have hstep : ∀ σ e σ', stepEv σ e = some σ' →
      ∀ p : Nat, (σ.strat.asynchronous = true → σ.strat.phase = p) →
        (σ.strat.phase = 2 → σ'.strat.phase = 2) ∧
        (σ'.strat.asynchronous = σ.strat.asynchronous) ∧
        (σ.strat.asynchronous = true → σ'.strat.phase = p) := by
    intro σ e σ' h p hreq
    cases e with
    | propose now sampler =>
      obtain ⟨_, _, _, _, _, h6, h7, h8, _⟩ :=
        propose_action_effects σ.strat now sampler
      rw [stepEv_propose_strat σ now sampler σ' h]
      exact ⟨h8, h6, fun ha => (h7 ha).trans (hreq ha)⟩
    | accept i =>
      obtain ⟨f, _, _, hstrat, _⟩ := stepAccept_strat σ i σ' h
      rw [hstrat]
      cases f.isInit
      · rw [if_neg (by simp)]; exact ⟨fun hp => hp, rfl, hreq⟩
      · rw [if_pos rfl]; exact ⟨fun hp => hp, rfl, hreq⟩
    | reject i =>
      obtain ⟨f, _, _, hstrat, _⟩ := stepReject_strat σ i σ' h
      rw [hstrat]
      cases f.isInit
      · rw [if_neg (by simp)]; exact ⟨fun hp => hp, rfl, hreq⟩
      · rw [if_pos rfl]; exact ⟨fun hp => hp, rfl, hreq⟩
    | complete i v =>
      obtain ⟨f, _, _, hstrat, _⟩ := stepComplete_strat σ i v σ' h
      rw [hstrat]
      cases f.isInit
      · rw [if_neg (by simp)]
        obtain ⟨_, _, _, _, _, hph, hasy⟩ := on_adapt_completed_hist σ.strat f.x v
        exact ⟨fun hp => hph.trans hp, hasy, fun ha => hph.trans (hreq ha)⟩
      · rw [if_pos rfl]
        obtain ⟨_, _, _, _, _, hph, hasy⟩ := on_initial_completed_hist σ.strat f.x v
        exact ⟨fun hp => hph.trans hp, hasy, fun ha => hph.trans (hreq ha)⟩
    | abort i =>
      obtain ⟨f, _, _, hstrat, _⟩ := stepAbort_strat σ i σ' h
      rw [hstrat]
      cases f.isInit
      · rw [if_neg (by simp)]; exact ⟨fun hp => hp, rfl, hreq⟩
      · rw [if_pos rfl]; exact ⟨fun hp => hp, rfl, hreq⟩
  constructor
  · rintro cfg σ ⟨evs, hrun⟩ hasync
    have hinv := runWith_preserve stepEv
      (fun τ => τ.strat.asynchronous = cfg.asynchronous ∧
        (τ.strat.asynchronous = true → τ.strat.phase = 1))
      (fun τ e τ' hs hτ => by
        obtain ⟨_, h2', h3'⟩ := hstep τ e τ' hs 1 hτ.2
        exact ⟨h2'.trans hτ.1, fun ha => h3' (h2'.symm.trans ha)⟩)
      evs (initSys cfg) σ hrun ⟨rfl, fun _ => rfl⟩
    exact hinv.2 (hinv.1.trans hasync)
  · intro σ e σ' h hp2
    exact (hstep σ e σ' h σ.strat.phase (fun _ => rfl)).1 hp2

/-- Witness for C8: the freshly constructed asynchronous system is in
phase 1. -/
theorem phase_behavior_witness : (initSys cfgAsync).strat.phase = 1 :=
  phase_behavior.1 cfgAsync (initSys cfgAsync) ⟨[], rfl⟩ (by decide)

/-- Counterexample for C8 as stated: in asynchronous mode, after the single
initial point is proposed, accepted, and completed, `batch_queue = []` and
`init_pending = 0`, yet `phase` is still `1` (INITIAL) — the Controller never
transitions to ADAPTIVE in asynchronous mode. -/
theorem phase_claim_false :
    ∃ σ, Reachable cfgAsync σ ∧ σ.strat.phase = 1 ∧
      σ.strat.batch_queue = [] ∧ σ.strat.init_pending = 0 := by
  refine ⟨(runWith stepEv (initSys cfgAsync)
      [.propose 0 [], .accept 0, .complete 0 5]).get (by decide),
    ⟨[.propose 0 [], .accept 0, .complete 0 5],
      (Option.some_get (by decide)).symm⟩, ?_, ?_, ?_⟩ <;> decide

/-! ## C9 — synchronous batch policy -/

/-- `adapt_proposal_sync` when the queue is non-empty: pops the LAST
element. -/
theorem adapt_proposal_sync_eq_of_getLast (s : Strategy) (x : Point)
    (h : s.batch_queue.getLast? = some x) :
    adapt_proposal_sync s =
      (some (Action.eval x false),
        make_proposal { s with proposal_counter := s.proposal_counter + 1
                               batch_queue := s.batch_queue.dropLast } x) := by
  unfold adapt_proposal_sync
  rw [h]

/-- C9 (amended).  In synchronous mode, when `batch_queue` is empty,
`feval_pending = 0`, and no stopping condition holds, `propose_action` sets
`phase := 2`, requests exactly one batch of `nsamples =
min(batch_size, maxeval - numeval)` points from the Adaptive Sampler (the
requested count is never non-positive: `1 ≤ nsamplesInt`), enqueues it, and
issues the LAST point of the new batch (the queue is a Python list popped
from the end), leaving the rest enqueued. -/
theorem sync_batch_policy (s : Strategy) (now : Nat) (sampler : List Point)
    (hasync : s.asynchronous = false) (hq : s.batch_queue = [])
    (hp : s.feval_pending = 0) (hstop : stopCond s now = false)
    (hbs : 1 ≤ s.batch_size)
    (hlen : (nsamplesInt s).toNat ≤ sampler.length) :
    1 ≤ nsamplesInt s ∧
    (propose_action s now sampler).2.phase = 2 ∧
    (propose_action s now sampler).2.batch_queue
      = (sampler.take (nsamplesInt s).toNat).dropLast ∧
    ∃ x, (sampler.take (nsamplesInt s).toNat).getLast? = some x ∧
      (propose_action s now sampler).1 = some (Action.eval x false) := by
  have hn1 : 1 ≤ nsamplesInt s := by
    cases hm : s.maxeval with
    | none =>
      have heq : nsamplesInt s = (s.batch_size : Int) := by
        unfold nsamplesInt
        rw [hm]
      rw [heq]
      exact_mod_cast hbs
    | some m =>
      have heq : nsamplesInt s
          = min (s.batch_size : Int) ((m : Int) - (s.numeval : Int)) := by
        unfold nsamplesInt
        rw [hm]
      have hnm : ¬ m ≤ s.numeval := by
        intro hle
        have htrue : stopCond s now = true := by
          unfold stopCond
          rw [hm]
          simp [hle]
        rw [htrue] at hstop
        exact absurd hstop (by simp)
      rw [heq]
      refine le_min (by exact_mod_cast hbs) (by omega)
  have htake : (sampler.take (nsamplesInt s).toNat).length
      = (nsamplesInt s).toNat := by
    rw [List.length_take]
    exact Nat.min_eq_left hlen
  obtain ⟨x, hx⟩ : ∃ x,
      (sampler.take (nsamplesInt s).toNat).getLast? = some x := by
    cases hgl : (sampler.take (nsamplesInt s).toNat).getLast? with
    | some x => exact ⟨x, rfl⟩
    | none =>
      have hnil := List.getLast?_eq_none_iff.mp hgl
      rw [hnil] at htake
      simp at htake
      omega
  have hns : nsamplesInt { s with phase := 2 } = nsamplesInt s := rfl
  have hbatch : (make_batch { s with phase := 2 } sampler).batch_queue
      = sampler.take (nsamplesInt s).toNat := by
    show s.batch_queue ++ sampler.take (nsamplesInt { s with phase := 2 }).toNat
        = sampler.take (nsamplesInt s).toNat
    rw [hns, hq]
    rfl
  have hpa : propose_action s now sampler = sync_refill s sampler := by
    unfold propose_action
    rw [if_neg (by simp [hstop]), if_neg (by simp [hasync]), hq]
    show (if s.feval_pending = 0 then sync_refill s sampler else (none, s))
        = sync_refill s sampler
    rw [if_pos hp]
  have hglast : (make_batch { s with phase := 2 } sampler).batch_queue.getLast?
      = some x := by rw [hbatch]; exact hx
  have hsr : sync_refill s sampler =
      (some (Action.eval x false),
        make_proposal
          { (make_batch { s with phase := 2 } sampler) with
              proposal_counter :=
                (make_batch { s with phase := 2 } sampler).proposal_counter + 1
              batch_queue :=
                (make_batch { s with phase := 2 } sampler).batch_queue.dropLast }
          x) := by
    unfold sync_refill
    exact adapt_proposal_sync_eq_of_getLast _ x hglast
  rw [hpa, hsr]
  refine ⟨hn1, rfl, ?_, x, hx, rfl⟩
  show (make_batch { s with phase := 2 } sampler).batch_queue.dropLast
      = (sampler.take (nsamplesInt s).toNat).dropLast
  rw [hbatch]

/-- Witness for C9: in the synchronous configuration with `batch_size = 2`
and one completed evaluation, the refill branch requests
`min(2, 10 - 0) = 2` points and issues one of them. -/
theorem sync_batch_policy_witness :
    1 ≤ nsamplesInt (initStrategy cfgSync2) ∧
    (propose_action (initStrategy cfgSync2) 0 [[1], [2]]).2.phase = 2 := by
  have h := sync_batch_policy (initStrategy cfgSync2) 0 [[1], [2]]
    (by decide) (by decide) (by decide) (by decide) (by decide) (by decide)
  exact ⟨h.1, h.2.1⟩

/-- Counterexample for C9 as stated: at a reachable synchronous state with
an empty queue, no pending work, and no stopping condition, `propose_action`
with sampler batch `[[1], [2]]` issues the point `[2]` — the LAST point of
the freshly enqueued batch, not the first (`[1]`), because `batch_queue` is
popped from the end. -/
theorem sync_batch_first_point_false :
    ∃ σ, Reachable cfgSync σ ∧ σ.strat.asynchronous = false ∧
      σ.strat.batch_queue = [] ∧ σ.strat.feval_pending = 0 ∧
      stopCond σ.strat 0 = false ∧
      (propose_action σ.strat 0 [[1], [2]]).1
        = some (Action.eval [2] false) ∧
      some (Action.eval ([2] : Point) false)
        ≠ some (Action.eval ([1] : Point) false) := by
  refine ⟨(runWith stepEv (initSys cfgSync)
      [.propose 0 [], .accept 0, .complete 0 5]).get (by decide),
    ⟨[.propose 0 [], .accept 0, .complete 0 5],
      (Option.some_get (by decide)).symm⟩, ?_, ?_, ?_, ?_, ?_, ?_⟩ <;> decide

end PySOT
